import Mathlib

/-!
Verification development for the batch document-processing repository
(job orchestration, retry executor, document chunker, record store with
corruption recovery, sharded output writer).

The JavaScript source is shallowly embedded: every definition below is a
direct translation of a function of the repository (file and symbol named
in its doc comment).  External library primitives (`JSON.parse`,
`String.prototype.split`, `lastIndexOf`, `substring`, `padStart`) are
modelled by executable Lean functions with the same observable semantics
on the inputs the theorems use; wall-clock timestamps, the file system and
`Math.random` jitter are outside the embedding, so fields derived from
them (`createdAt`, `processingTime`, byte sizes reported by `fs.stat`) are
omitted, and sleeping (backoff, rate limiting, backpressure) is dropped as
it does not affect any returned value.
-/

namespace AD

/-! ## JSON values and a model of `JSON.parse`

The record store serializes collections with `JSON.stringify` and reads
them back with `JSON.parse`.  `Json` is the value tree; `Json.parse` is an
executable model of `JSON.parse` restricted to integer numerals (the
grammar is otherwise complete: null, booleans, strings with the common
escapes, arrays, objects, whitespace), which covers every input used in
this development. -/

inductive Json where
  | null : Json
  | bool (b : Bool) : Json
  | num (n : Int) : Json
  | str (s : String) : Json
  | arr (elems : List Json) : Json
  | obj (members : List (String × Json)) : Json

/-- JSON whitespace characters. -/
def isWs (c : Char) : Bool :=
  c == ' ' || c == '\t' || c == '\n' || c == '\r'

/-- Drop leading JSON whitespace. -/
def skipWs (cs : List Char) : List Char :=
  cs.dropWhile isWs

/-- Body of a JSON string after the opening quote; decodes the common
escape sequences.  Returns the string and the remaining input. -/
def parseStringBody (acc : List Char) : List Char → Option (String × List Char)
  | [] => none
  | c :: cs =>
    if c = '"' then some (String.mk acc.reverse, cs)
    else if c = '\\' then
      match cs with
      | [] => none
      | e :: cs2 =>
        let d := if e = 'n' then '\n' else if e = 't' then '\t'
          else if e = 'r' then '\r' else e
        parseStringBody (d :: acc) cs2
    else parseStringBody (c :: acc) cs

/-- A nonempty run of decimal digits as a natural number. -/
def parseNatNum (cs : List Char) : Option (Nat × List Char) :=
  let ds := cs.takeWhile Char.isDigit
  if ds.isEmpty then none
  else some (ds.foldl (fun a c => a * 10 + (c.toNat - 48)) 0, cs.dropWhile Char.isDigit)

mutual

/-- One JSON value, fuelled (the fuel only bounds recursion depth; the
top-level entry point supplies enough fuel for any input). -/
def parseValue : Nat → List Char → Option (Json × List Char)
  | 0, _ => none
  | fuel + 1, cs =>
    match skipWs cs with
    | [] => none
    | c :: rest =>
      if c = 'n' then
        if rest.take 3 = ['u', 'l', 'l'] then some (Json.null, rest.drop 3) else none
      else if c = 't' then
        if rest.take 3 = ['r', 'u', 'e'] then some (Json.bool true, rest.drop 3) else none
      else if c = 'f' then
        if rest.take 4 = ['a', 'l', 's', 'e'] then some (Json.bool false, rest.drop 4) else none
      else if c = '"' then
        match parseStringBody [] rest with
        | some (s, cs2) => some (Json.str s, cs2)
        | none => none
      else if c = '-' then
        match parseNatNum rest with
        | some (n, cs2) => some (Json.num (-(n : Int)), cs2)
        | none => none
      else if c.isDigit then
        match parseNatNum (c :: rest) with
        | some (n, cs2) => some (Json.num (n : Int), cs2)
        | none => none
      else if c = '[' then
        match skipWs rest with
        | ']' :: cs2 => some (Json.arr [], cs2)
        | _ =>
          match parseElems fuel rest with
          | some (vs, cs2) => some (Json.arr vs, cs2)
          | none => none
      else if c = '{' then
        match skipWs rest with
        | '}' :: cs2 => some (Json.obj [], cs2)
        | _ =>
          match parseMembers fuel rest with
          | some (ms, cs2) => some (Json.obj ms, cs2)
          | none => none
      else none

/-- Comma-separated JSON values up to the closing bracket. -/
def parseElems : Nat → List Char → Option (List Json × List Char)
  | 0, _ => none
  | fuel + 1, cs =>
    match parseValue fuel cs with
    | none => none
    | some (v, cs2) =>
      match skipWs cs2 with
      | ',' :: cs3 =>
        match parseElems fuel cs3 with
        | some (vs, cs4) => some (v :: vs, cs4)
        | none => none
      | ']' :: cs3 => some ([v], cs3)
      | _ => none

/-- Comma-separated `"key": value` members up to the closing brace. -/
def parseMembers : Nat → List Char → Option (List (String × Json) × List Char)
  | 0, _ => none
  | fuel + 1, cs =>
    match skipWs cs with
    | '"' :: cs1 =>
      match parseStringBody [] cs1 with
      | some (k, cs2) =>
        match skipWs cs2 with
        | ':' :: cs3 =>
          match parseValue fuel cs3 with
          | some (v, cs4) =>
            match skipWs cs4 with
            | ',' :: cs5 =>
              match parseMembers fuel cs5 with
              | some (ms, cs6) => some ((k, v) :: ms, cs6)
              | none => none
            | '}' :: cs5 => some ([(k, v)], cs5)
            | _ => none
          | none => none
        | _ => none
      | none => none
    | _ => none

end

/-- Model of `JSON.parse`: the whole input must be one JSON value
surrounded only by whitespace. -/
def Json.parse (s : String) : Option Json :=
  match parseValue (2 * s.length + 2) s.data with
  | some (v, rest) => if skipWs rest = [] then some v else none
  | none => none

/-! ## Record store read path with corruption recovery

`FileSystemJobRepository.getAllJobs` (src/unnamed/part_004 lines 650-709)
and `FileSystemDocumentRepository.getAllDocuments`
(src/src/infrastructure/adapters/FileSystemDocumentRepository.js lines
242-301) are character-for-character the same algorithm over different
files; `readCollection` embeds it once.  The file system is abstracted to
the live file's content (`none` when the file does not exist). -/

/-- Model of JavaScript `String.prototype.split` with a one-character
separator. -/
def splitOnChar (c : Char) : List Char → List (List Char)
  | [] => [[]]
  | x :: xs =>
    if x = c then [] :: splitOnChar c xs
    else
      match splitOnChar c xs with
      | [] => [[x]]
      | l :: ls => (x :: l) :: ls

/-- `true` when JavaScript `!data.trim()` is true, i.e. the string is
whitespace only. -/
def trimIsEmpty (s : String) : Bool :=
  s.data.all isWs

/-- Outcome of one read of a collection file: the value handed to the
caller, the live file's content afterwards, and the content copied to a
timestamped backup file when one was created. -/
structure ReadOutcome where
  records : Json
  newContent : String
  backup : Option String

/-- The newline-separated fragments of the file that parse as standalone
JSON values (the survivors of line-by-line recovery). -/
def validLines (data : String) : List String :=
  ((splitOnChar '\n' data.data).map String.mk).filter fun l => (Json.parse l).isSome

/-- Embedding of `getAllJobs` / `getAllDocuments`: missing file is
initialised to an empty collection; an empty file reads as empty; a file
that parses as one JSON value is returned as is; otherwise line-by-line
recovery keeps the fragments that parse, reassembling an array from them,
and only when no fragment survives is the file copied to a backup and the
live file reset to `[]`. -/
def readCollection (file : Option String) : ReadOutcome :=
  match file with
  | none => ⟨Json.arr [], "[]", none⟩
  | some data =>
    if trimIsEmpty data then ⟨Json.arr [], data, none⟩
    else
      match Json.parse data with
      | some v => ⟨v, data, none⟩
      | none =>
        let valid := validLines data
        if valid.isEmpty then ⟨Json.arr [], "[]", some data⟩
        else
          ⟨(Json.parse ("[" ++ String.intercalate "," valid ++ "]")).getD (Json.arr []),
            data, none⟩

/-! ## Document chunking

`Document.chunkContent` (src/src/domain/entities/Document.js lines
110-137) splits oversized content into overlapping windows inside a
`while` loop.  The loop is rendered as the list of `(start, end)` index
windows it visits (`chunkSpans`, fuelled because the JS loop need not
terminate for all parameters), each pushed chunk being
`substring(start, end)`. -/

/-- Model of JavaScript `s.substring(a, b)` for `a ≤ b`, the only way the
source calls it: indices are clamped to the string's length. -/
def jsSubstring (s : String) (a b : Nat) : String :=
  String.mk ((s.data.drop a).take (b - a))

/-- Helper for `jsLastIndexOf`: scan the characters from index `i`
upward, returning the largest index that is at most `limit` and holds
`c`, else `-1`. -/
def lastIndexOfAux (c : Char) (limit : Nat) : List Char → Nat → Int
  | [], _ => -1
  | x :: xs, i =>
    let rest := lastIndexOfAux c limit xs (i + 1)
    if 0 ≤ rest then rest
    else if i ≤ limit ∧ x = c then (i : Int) else -1

/-- Model of JavaScript `s.lastIndexOf(c, fromIndex)` for a one-character
search string: the largest index at most `fromIndex` where `c` occurs,
`-1` when there is none. -/
def jsLastIndexOf (s : String) (c : Char) (fromIndex : Nat) : Int :=
  lastIndexOfAux c fromIndex s.data 0

/-- `Document.needsChunking`: the content's size (character length)
strictly exceeds `maxChunkSize`. -/
def needsChunking (content : String) (maxChunkSize : Nat) : Bool :=
  content.length > maxChunkSize

/-- One window's end as computed by the body of the `while` loop of
`Document.chunkContent`: `start + maxChunkSize`, moved to one past the
last sentence boundary (`.`) or newline at or before that position when
that boundary lies past 80% of the window.  The source's comparison
`breakPoint > start + maxChunkSize * 0.8` is taken in exact arithmetic,
multiplied through by 5. -/
def chunkEnd (content : String) (maxChunkSize : Nat) (start : Nat) : Nat :=
  let e := start + maxChunkSize
  if e < content.length then
    let lastPeriod := jsLastIndexOf content '.' e
    let lastNewline := jsLastIndexOf content '\n' e
    let breakPoint := max lastPeriod lastNewline
    if 5 * breakPoint > 5 * (start : Int) + 4 * (maxChunkSize : Int) then breakPoint.toNat + 1
    else e
  else e

/-- The `(start, end)` windows visited by the `while` loop of
`Document.chunkContent`, starting at `start`; the next iteration starts
at `end - overlap`.  `none` models the JS loop running out of the given
fuel, i.e. not terminating. -/
def chunkSpans (content : String) (maxChunkSize overlap : Nat) :
    Nat → Nat → Option (List (Nat × Nat))
  | 0, _ => none
  | fuel + 1, start =>
    if start < content.length then
      let e := chunkEnd content maxChunkSize start
      match chunkSpans content maxChunkSize overlap fuel (e - overlap) with
      | some rest => some ((start, e) :: rest)
      | none => none
    else some []

/-- Embedding of `Document.chunkContent`: content not needing chunking
passes through as a single chunk; otherwise the windows of the `while`
loop, as substrings.  `none` models nontermination of the JS loop. -/
def chunkContent (content : String) (maxChunkSize overlap : Nat) : Option (List String) :=
  if needsChunking content maxChunkSize = false then some [content]
  else
    match chunkSpans content maxChunkSize overlap (content.length + 1) 0 with
    | some spans => some (spans.map fun p => jsSubstring content p.1 p.2)
    | none => none

/-! ## Domain entities

`Job` (src/src/domain/entities/Job.js) and `Document`
(src/src/domain/entities/Document.js).  Timestamps (`createdAt`,
`updatedAt`) come from the wall clock and are omitted; `metadata` is the
free-form map holding the last result or last error, modelled by its two
used keys.  `Document.contentType` and `source` are never read by the
processing paths under verification and are omitted. -/

inductive Status where
  | pending : Status
  | processing : Status
  | completed : Status
  | failed : Status
deriving DecidableEq

/-- Rank of a status along the lifecycle
pending → processing → {completed, failed}. -/
def statusRank : Status → Nat
  | .pending => 0
  | .processing => 1
  | .completed => 2
  | .failed => 2

/-- The `Document` entity. -/
structure Doc where
  id : String
  name : String
  content : String
  status : Status
  metadataError : Option String
  metadataResult : Option Json

/-- `Document.markProcessing`. -/
def Doc.markProcessing (d : Doc) : Doc :=
  { d with status := .processing }

/-- `Document.markCompleted`. -/
def Doc.markCompleted (d : Doc) (result : Json) : Doc :=
  { d with status := .completed, metadataResult := some result }

/-- `Document.markFailed`. -/
def Doc.markFailed (d : Doc) (e : String) : Doc :=
  { d with status := .failed, metadataError := some e }

/-- The `extractionConfig` carried by a job: a `type` tag and an opaque
schema blob (the core round-trips the schema without interpreting it;
re-hydration via `ExtractionSchema.fromJSON` changes only the blob's
runtime class, not its data, and is not modelled). -/
structure ExtractionConfig where
  type : String
  schema : Option Json

/-- The effective extraction type, `extractionConfig.type || "schema"`:
an empty (JS falsy) tag defaults to `"schema"`. -/
def effectiveType (config : ExtractionConfig) : String :=
  if config.type = "" then "schema" else config.type

/-! ## Sharded output writer

`LocalOutputService` (src/src/infrastructure/adapters/
FileSystemDocumentRepository.js lines 313-789).  Per-file byte sizes
(`fs.stat`), `processingTime` and `createdAt` come from the file system
and the clock and are omitted from the metadata model. -/

/-- Shared embedding of the slicing loops `ProcessJobUseCase.createBatches`
and `LocalOutputService.createShards` (both cut a list into contiguous
pieces of at most `size` elements, by a `for` loop stepping `size`).  The
JS loops do not terminate for `size = 0`; the model returns `[]` there
(no claim exercises that case). -/
def sliceEvery {α : Type} (l : List α) (size : Nat) : List (List α) :=
  if _h1 : size = 0 then []
  else if h2 : l.isEmpty then []
  else l.take size :: sliceEvery (l.drop size) size
termination_by l.length
decreasing_by
  have hpos : 0 < l.length := by
    cases l with
    | nil => simp at h2
    | cons a as => simp
  simp only [List.length_drop]
  omega

/-- `ProcessJobUseCase.createBatches`. -/
def createBatches {α : Type} (documents : List α) (batchSize : Nat) : List (List α) :=
  sliceEvery documents batchSize

/-- `LocalOutputService.createShards`. -/
def createShards {α : Type} (results : List α) (shardSize : Nat) : List (List α) :=
  sliceEvery results shardSize

/-- Model of JavaScript `s.padStart(n, c)`. -/
def jsPadStart (s : String) (n : Nat) (c : Char) : String :=
  String.mk (List.replicate (n - s.length) c) ++ s

/-- `LocalOutputService.generateFileName`: deterministic shard file name
from the job id and the zero-padded (width 4) shard index. -/
def generateFileName (jobId : String) (shardIndex : Nat) (format : String)
    (compression : Bool) : String :=
  let baseName := "results_" ++ jobId ++ "_shard_" ++ jsPadStart (toString shardIndex) 4 '0'
  let extension := if format = "jsonl" then "jsonl" else format
  if compression then baseName ++ "." ++ extension ++ ".gz"
  else baseName ++ "." ++ extension

/-- One entry of the metadata's `outputFiles` list. -/
structure OutputFile where
  fileName : String
  recordCount : Nat

/-- The metadata record written by `LocalOutputService.writeResults`
(byte sizes, elapsed time and creation timestamp omitted, see above). -/
structure OutputMetadata where
  jobId : String
  outputFiles : List OutputFile
  totalRecords : Nat
  totalFiles : Nat
  format : String
  compression : Bool

/-- The `for` loop of `writeResults` over the shards: one output file per
shard, named by its index. -/
def shardFiles {α : Type} (jobId : String) (format : String) (compression : Bool) :
    Nat → List (List α) → List OutputFile
  | _, [] => []
  | i, shard :: rest =>
    ⟨generateFileName jobId i format compression, shard.length⟩ ::
      shardFiles jobId format compression (i + 1) rest

/-- Embedding of `LocalOutputService.writeResults`: shard the ordered
result list, write one file per shard, and return the summarizing
metadata. -/
def writeResults {α : Type} (jobId : String) (results : List α) (shardSize : Nat)
    (format : String) (compression : Bool) : OutputMetadata :=
  let shards := createShards results shardSize
  let outputFiles := shardFiles jobId format compression 0 shards
  ⟨jobId, outputFiles, results.length, outputFiles.length, format, compression⟩

/-! ## Extraction from one document

`ProcessJobUseCase.extractFromDocument` and
`ProcessJobUseCase.combineChunkResults` (src/unnamed/part_005 lines
775-896).  The external extractor collaborator is a parameter
(`ExtractorProvider`); extraction results are `Json` values. -/

mutual

/-- Structural equality on `Json` values (model of JavaScript `Set`
membership, which for the keyword lists of this repository compares
primitive values). -/
def Json.beq : Json → Json → Bool
  | .null, .null => true
  | .bool a, .bool b => a == b
  | .num a, .num b => a == b
  | .str a, .str b => a == b
  | .arr a, .arr b => beqJsonList a b
  | .obj a, .obj b => beqJsonMembers a b
  | _, _ => false

def beqJsonList : List Json → List Json → Bool
  | [], [] => true
  | x :: xs, y :: ys => Json.beq x y && beqJsonList xs ys
  | _, _ => false

def beqJsonMembers : List (String × Json) → List (String × Json) → Bool
  | [], [] => true
  | (k1, v1) :: xs, (k2, v2) :: ys => k1 == k2 && Json.beq v1 v2 && beqJsonMembers xs ys
  | _, _ => false

end

/-- Look up a field of a JSON object (`undefined` is `none`). -/
def Json.getField (j : Json) (key : String) : Option Json :=
  match j with
  | .obj ms => (ms.find? fun m => m.1 == key).map Prod.snd
  | _ => none

/-- The members of a JSON object, `none` for any other value. -/
def Json.asObj (j : Json) : Option (List (String × Json)) :=
  match j with
  | .obj ms => some ms
  | _ => none

/-- Model of `Object.assign(a, b)` restricted to data objects: keys of `a`
keep their position with values overridden by `b`, new keys of `b` are
appended in order. -/
def objAssign (a b : List (String × Json)) : List (String × Json) :=
  (a.map fun p => (p.1, ((b.find? fun q => q.1 == p.1).map Prod.snd).getD p.2)) ++
    b.filter fun q => !(a.any fun p => p.1 == q.1)

/-- One chunk's entry in the `results` list of `extractFromDocument`. -/
structure ChunkResult where
  chunkIndex : Nat
  chunkSize : Nat
  result : Json

/-- External extractor collaborator (§6 of the spec): the four extraction
calls, each of which may fail (failures are retryable). -/
structure ExtractorProvider where
  extractWithSchema : String → Option Json → Except String Json
  extractEntities : String → Except String Json
  generateSummary : String → Except String Json
  extractKeywords : String → Except String Json

/-- `ProcessJobUseCase.combineChunkResults`: merge per-chunk results into
one logical result, keyed by extraction type.  The `schema` branch's
combined confidence (a JS floating-point mean) is modelled with integer
division; no theorem depends on it. -/
def combineChunkResults (chunkResults : List ChunkResult) (extractionType : String) : Json :=
  match chunkResults with
  | [cr] => cr.result
  | _ =>
    if extractionType = "schema" then
      let combinedData := chunkResults.foldl
        (fun acc cr =>
          match (Json.getField cr.result "data").bind Json.asObj with
          | some ms => objAssign acc ms
          | none => acc) []
      let confidenceSum := chunkResults.foldl
        (fun acc cr =>
          match Json.getField cr.result "confidence" with
          | some (Json.num n) => acc + n
          | _ => acc) 0
      Json.obj [("data", Json.obj combinedData),
        ("confidence", Json.num (confidenceSum / chunkResults.length)),
        ("chunks", Json.num chunkResults.length)]
    else if extractionType = "entities" then
      Json.arr (chunkResults.foldl
        (fun acc cr =>
          match cr.result with
          | Json.arr xs => acc ++ xs
          | _ => acc) [])
    else if extractionType = "summary" then
      ((chunkResults.head?).map fun cr => cr.result).getD Json.null
    else if extractionType = "keywords" then
      Json.arr (chunkResults.foldl
        (fun acc cr =>
          match cr.result with
          | Json.arr xs => xs.foldl (fun a k => if a.any (Json.beq k) then a else a ++ [k]) acc
          | _ => acc) [])
    else
      Json.arr (chunkResults.map fun cr =>
        Json.obj [("chunkIndex", Json.num cr.chunkIndex), ("chunkSize", Json.num cr.chunkSize),
          ("result", cr.result)])

/-- Scale, reliability and output settings read through `getConfig`
(src/unnamed/part_005, `appConfig`).  The claims quantify over
configurations, so the ambient config is a parameter of the model. -/
structure Config where
  maxBatchSize : Nat
  maxConcurrentBatches : Nat
  maxConcurrentWorkers : Nat
  maxRetries : Nat
  maxChunkSize : Nat
  enableChunking : Bool
  shardSize : Nat
  outputFormat : String
  compressionEnabled : Bool

/-- The `for` loop of `extractFromDocument` over the chunks: dispatch on
the extraction type, abort on the first failing chunk or on an
unsupported type, and record each chunk's indexed result. -/
def runChunks (provider : ExtractorProvider) (extractionType : String) (schema : Option Json) :
    Nat → List String → Except String (List ChunkResult)
  | _, [] => .ok []
  | i, chunk :: rest =>
    let r : Except String Json :=
      if extractionType = "schema" then provider.extractWithSchema chunk schema
      else if extractionType = "entities" then provider.extractEntities chunk
      else if extractionType = "summary" then provider.generateSummary chunk
      else if extractionType = "keywords" then provider.extractKeywords chunk
      else .error ("Unsupported extraction type: " ++ extractionType)
    match r with
    | .error e => .error e
    | .ok v =>
      match runChunks provider extractionType schema (i + 1) rest with
      | .ok more => .ok (⟨i, chunk.length, v⟩ :: more)
      | .error e => .error e

/-- Embedding of `ProcessJobUseCase.extractFromDocument`: chunk the
document's content when chunking is enabled and the content is oversized
(the source calls `document.chunkContent(maxChunkSize)`, so the overlap
is `chunkContent`'s default of 200), run the extractor over every chunk,
and combine.  The returned flag records whether the content was chunked;
`none` models nontermination of the chunking loop. -/
def extractFromDocument (provider : ExtractorProvider) (cfg : Config)
    (config : ExtractionConfig) (doc : Doc) : Option (Except String Json × Bool) :=
  let extractionType := effectiveType config
  let didChunk := cfg.enableChunking && needsChunking doc.content cfg.maxChunkSize
  let chunksOpt := if didChunk then chunkContent doc.content cfg.maxChunkSize 200
    else some [doc.content]
  match chunksOpt with
  | none => none
  | some chunks =>
    match runChunks provider extractionType config.schema 0 chunks with
    | .error e => some (.error e, didChunk)
    | .ok crs => some (.ok (combineChunkResults crs extractionType), didChunk)

/-! ## Retry executor

`ProcessJobUseCase.processDocument` (src/unnamed/part_005 lines 716-767):
a `for` loop of `maxRetries + 1` attempts over one document.  The outcome
of the extraction call on each attempt is an oracle `Nat → Except String
Json` (the external extractor may behave differently per attempt); the
backoff sleep between attempts affects no returned value and is
dropped. -/

/-- Per-document processing record returned on success
(`processingTime`, computed from the clock, omitted). -/
structure ProcessingResult where
  documentId : String
  documentName : String
  result : Json
  attempts : Nat

/-- What one `processDocument` run produces: the result (or `none` after
exhausted retries), the document's final state as last saved to the
record store, and the number of extraction attempts actually made. -/
structure DocRunOutcome where
  result : Option ProcessingResult
  finalDoc : Doc
  calls : Nat

/-- The retry `for` loop: `remaining` attempts left, `attempt` the
0-indexed number of the current one, `lastError` the message of the last
failure.  Each attempt first marks (and saves) the document as
processing; a success marks it completed and returns the result with the
1-indexed attempt count; exhaustion marks it failed with the last
error. -/
def retryLoop (extract : Nat → Except String Json) (d : Doc) :
    Nat → Nat → Option String → DocRunOutcome
  | _, 0, lastError => ⟨none, d.markFailed (lastError.getD ""), 0⟩
  | attempt, remaining + 1, _lastError =>
    let dp := d.markProcessing
    match extract attempt with
    | .ok result =>
      ⟨some ⟨dp.id, dp.name, result, attempt + 1⟩, dp.markCompleted result, 1⟩
    | .error e =>
      let next := retryLoop extract dp (attempt + 1) remaining (some e)
      ⟨next.result, next.finalDoc, next.calls + 1⟩

/-- Embedding of `ProcessJobUseCase.processDocument`: attempts
`0 .. maxRetries`, i.e. `maxRetries + 1` of them. -/
def processDocument (extract : Nat → Except String Json) (maxRetries : Nat)
    (d : Doc) : DocRunOutcome :=
  retryLoop extract d 0 (maxRetries + 1) none

/-! ## Concurrency and batch controller, job orchestrator

`ProcessJobUseCase.execute`, `processDocuments`, `processBatch`
(src/unnamed/part_005 lines 543-708) and the record-store repositories it
drives.  Concurrency is cooperative waves of settled promises whose
results are collected in wave order, so the embedding renders the wave
structure as nested slicing; rate-limiter and backpressure sleeps affect
no returned value and are dropped.  The record store is abstracted to the
one job record `findById(jobId)` resolves to plus the document
collection; record-store and output-writer failures are injected fault
parameters (`Option String`, the thrown error's message). -/

/-- The `processingResult` summary built by `execute` (elapsed
`processingTime` omitted). -/
structure JobSummary where
  jobId : String
  totalDocuments : Nat
  processedDocuments : Nat
  failedDocuments : Nat
  outputMetadata : OutputMetadata

/-- The `Job` entity (src/src/domain/entities/Job.js); timestamps
omitted, `metadata` modelled by its two used keys. -/
structure JobRec where
  id : String
  name : String
  extractionConfig : ExtractionConfig
  documentIds : List String
  status : Status
  metadataError : Option String
  metadataResult : Option JobSummary

/-- `Job.markProcessing`. -/
def JobRec.markProcessing (j : JobRec) : JobRec :=
  { j with status := .processing }

/-- `Job.markCompleted`. -/
def JobRec.markCompleted (j : JobRec) (result : JobSummary) : JobRec :=
  { j with status := .completed, metadataResult := some result }

/-- `Job.markFailed`. -/
def JobRec.markFailed (j : JobRec) (e : String) : JobRec :=
  { j with status := .failed, metadataError := some e }

/-- `FileSystemDocumentRepository.findByIds` followed by
`ProcessJobUseCase.getDocumentsForJob`'s empty-list shortcut: documents
of the store (in store order) whose id the job references; ids with no
matching document are silently dropped. -/
def getDocumentsForJob (docStore : List Doc) (job : JobRec) : List Doc :=
  if job.documentIds.isEmpty then []
  else docStore.filter fun d => job.documentIds.contains d.id

/-- The environment of one `execute` run: configuration, record store
content, the extraction oracle (outcome of `extractFromDocument` per
document and 0-indexed attempt), and the injected failures of the
fallible infrastructure calls (`none` = the call succeeds). -/
structure Env where
  cfg : Config
  jobStore : Option JobRec
  docStore : List Doc
  extract : Doc → Nat → Except String Json
  saveProcessingError : Option String
  findDocsError : Option String
  writeOutputError : Option String
  saveCompletedError : Option String

/-- `ProcessJobUseCase.processBatch`: sub-waves of at most
`maxConcurrentWorkers` documents; fulfilled non-null results are
collected, null results (exhausted retries) are skipped.  Returns the
collected results and the documents' final saved states. -/
def processBatch (extract : Doc → Nat → Except String Json)
    (maxRetries maxConcurrentWorkers : Nat) (batch : List Doc) :
    List ProcessingResult × List Doc :=
  let groups := sliceEvery batch maxConcurrentWorkers
  ((groups.map fun g =>
      g.filterMap fun d => (processDocument (extract d) maxRetries d).result).flatten,
   (groups.map fun g =>
      g.map fun d => (processDocument (extract d) maxRetries d).finalDoc).flatten)

/-- `ProcessJobUseCase.processDocuments`: contiguous batches of
`maxBatchSize`, processed in waves of `maxConcurrentBatches`, each
batch's results appended in wave order. -/
def processDocuments (extract : Doc → Nat → Except String Json) (cfg : Config)
    (documents : List Doc) : List ProcessingResult × List Doc :=
  let batches := createBatches documents cfg.maxBatchSize
  let waves := sliceEvery batches cfg.maxConcurrentBatches
  ((waves.map fun w =>
      (w.map fun b =>
        (processBatch extract cfg.maxRetries cfg.maxConcurrentWorkers b).1).flatten).flatten,
   (waves.map fun w =>
      (w.map fun b =>
        (processBatch extract cfg.maxRetries cfg.maxConcurrentWorkers b).2).flatten).flatten)

/-- What one `execute(jobId)` run produces: the returned summary or the
re-raised error, the job record as last saved to the store, the final
saved states of the processed documents, the in-memory result list (lost,
i.e. `[]`, when the run failed), and the trace of job statuses saved to
the store, in order. -/
structure ExecOutcome where
  result : Except String JobSummary
  finalJob : Option JobRec
  finalDocs : List Doc
  results : List ProcessingResult
  jobSaves : List Status

/-- Embedding of `ProcessJobUseCase.execute`: load the job (NotFound when
missing), persist `processing`, resolve the document set (EmptyJob when
it is empty), process all documents, write the sharded output, persist
`completed` with the summary; any thrown error is caught, the job as
re-fetched from the store is marked failed with the error message and
saved, and the error is re-raised.  A failed save leaves the store
unchanged; the catch path's own store accesses succeed (faults are
injected only at the run's calls, matching the claims' scope). -/
def execute (env : Env) (jobId : String) : ExecOutcome :=
  match env.jobStore with
  | none => ⟨.error ("Job " ++ jobId ++ " not found"), none, [], [], []⟩
  | some job =>
    let jp := job.markProcessing
    match env.saveProcessingError with
    | some e =>
      let jf := job.markFailed e
      ⟨.error e, some jf, [], [], [jf.status]⟩
    | none =>
      let documentsE : Except String (List Doc) :=
        if job.documentIds.isEmpty then .ok []
        else
          match env.findDocsError with
          | some e => .error e
          | none => .ok (getDocumentsForJob env.docStore job)
      match documentsE with
      | .error e =>
        let jf := jp.markFailed e
        ⟨.error e, some jf, [], [], [jp.status, jf.status]⟩
      | .ok documents =>
        if documents.isEmpty then
          let e := "No documents found for job " ++ jobId
          let jf := jp.markFailed e
          ⟨.error e, some jf, [], [], [jp.status, jf.status]⟩
        else
          let pr := processDocuments env.extract env.cfg documents
          match env.writeOutputError with
          | some e =>
            let jf := jp.markFailed e
            ⟨.error e, some jf, pr.2, [], [jp.status, jf.status]⟩
          | none =>
            let outputMetadata := writeResults jobId pr.1 env.cfg.shardSize
              env.cfg.outputFormat env.cfg.compressionEnabled
            let summary : JobSummary :=
              ⟨jobId, documents.length, pr.1.length, documents.length - pr.1.length,
                outputMetadata⟩
            match env.saveCompletedError with
            | some e =>
              let jf := jp.markFailed e
              ⟨.error e, some jf, pr.2, [], [jp.status, jf.status]⟩
            | none =>
              let jc := jp.markCompleted summary
              ⟨.ok summary, some jc, pr.2, pr.1, [jp.status, jc.status]⟩

/-! ## Concrete instances

Small concrete environments used to evaluate the theorems on explicit
inputs. -/

/-- An extractor collaborator whose calls all succeed with empty
results. -/
def provider0 : ExtractorProvider :=
  ⟨fun _ _ => .ok Json.null, fun _ => .ok (Json.arr []),
   fun _ => .ok Json.null, fun _ => .ok (Json.arr [])⟩

/-- An extraction oracle that fails on every attempt. -/
def alwaysFail : Nat → Except String Json := fun _ => .error "boom"

/-- An extraction oracle that fails on attempt 0 and succeeds from
attempt 1 on. -/
def failOnce : Nat → Except String Json :=
  fun k => if k = 0 then .error "boom" else .ok Json.null

/-- A small pending document. -/
def doc1 : Doc := ⟨"d1", "doc one", "hello", .pending, none, none⟩

/-- A pending document whose 301-character content exceeds a
`maxChunkSize` of 300. -/
def docBig : Doc := ⟨"d2", "big doc", String.mk (List.replicate 301 'a'), .pending, none, none⟩

/-- A small configuration (all bounds positive). -/
def cfgSmall : Config := ⟨2, 2, 2, 1, 300, true, 2, "jsonl", false⟩

/-- A pending job referencing no documents. -/
def jobEmptyDocs : JobRec := ⟨"j1", "job one", ⟨"entities", none⟩, [], .pending, none, none⟩

/-- A pending job referencing `d1` and a nonexistent `dx`. -/
def jobTwoDocs : JobRec :=
  ⟨"j1", "job one", ⟨"entities", none⟩, ["d1", "dx"], .pending, none, none⟩

/-- A pending job referencing only `d1`. -/
def jobOneDoc : JobRec := ⟨"j1", "job one", ⟨"entities", none⟩, ["d1"], .pending, none, none⟩

/-- Environment: job exists but resolves no documents (EmptyJob path). -/
def envEmpty : Env :=
  ⟨cfgSmall, some jobEmptyDocs, [], fun _ _ => .ok Json.null, none, none, none, none⟩

/-- Environment: job references one existing and one missing document;
extraction succeeds. -/
def envMissingDoc : Env :=
  ⟨cfgSmall, some jobTwoDocs, [doc1], fun _ _ => .ok Json.null, none, none, none, none⟩

/-- Environment: one document whose extraction fails on every attempt. -/
def envFailDoc : Env :=
  ⟨cfgSmall, some jobOneDoc, [doc1], fun _ _ => .error "boom", none, none, none, none⟩

/-- An extraction config with an unsupported type tag. -/
def configBadType : ExtractionConfig := ⟨"vector", none⟩

/-! ## Lemmas about the slicing loops -/

theorem sliceEvery_nil {α : Type} (s : Nat) : sliceEvery ([] : List α) s = [] := by
  rw [sliceEvery]
  simp

theorem sliceEvery_cons {α : Type} (l : List α) (s : Nat) (hs : s ≠ 0) (hl : l ≠ []) :
    sliceEvery l s = l.take s :: sliceEvery (l.drop s) s := by
  rw [sliceEvery]
  have hempty : l.isEmpty = false := by
    cases l with
    | nil => exact absurd rfl hl
    | cons a as => rfl
  simp [hs, hempty]

/-- A function that distributes over append maps through `sliceEvery`
without loss: flattening the per-slice images gives the image of the
whole list. -/
theorem flatten_map_sliceEvery {α β : Type} (f : List α → List β)
    (hf : ∀ a b : List α, f (a ++ b) = f a ++ f b) (s : Nat) (hs : s ≠ 0)
    (l : List α) : ((sliceEvery l s).map f).flatten = f l := by
  by_cases hl : l = []
  · subst hl
    rw [sliceEvery_nil]
    have h3 := hf [] []
    rw [List.append_nil] at h3
    have h4 := congrArg List.length h3
    rw [List.length_append] at h4
    have h2 : (f []).length = 0 := by omega
    simp [List.eq_nil_of_length_eq_zero h2]
  · rw [sliceEvery_cons l s hs hl]
    simp only [List.map_cons, List.flatten_cons]
    rw [flatten_map_sliceEvery f hf s hs (l.drop s)]
    rw [← hf (l.take s) (l.drop s)]
    rw [List.take_append_drop]
termination_by l.length
decreasing_by
  have hpos : 0 < l.length := List.length_pos.mpr hl
  simp only [List.length_drop]
  omega

/-! ## C9: sharded output writer -/

/-- C9: for every `shardSize > 0` and every ordered list of exactly
`2 * shardSize + 1` results, `writeResults` produces exactly 3 shard
files with record counts `[shardSize, shardSize, 1]`, each named
deterministically from the job id and a zero-padded shard index, plus a
metadata file whose `totalRecords` equals `2 * shardSize + 1` and whose
`totalFiles` equals 3. -/
theorem c9_sharded_output {α : Type} (jobId : String) (results : List α) (s : Nat)
    (format : String) (comp : Bool) (hs : 0 < s) (hlen : results.length = 2 * s + 1) :
    (writeResults jobId results s format comp).outputFiles.map OutputFile.recordCount =
      [s, s, 1] ∧
    (writeResults jobId results s format comp).outputFiles.map OutputFile.fileName =
      [generateFileName jobId 0 format comp, generateFileName jobId 1 format comp,
        generateFileName jobId 2 format comp] ∧
    (writeResults jobId results s format comp).totalRecords = 2 * s + 1 ∧
    (writeResults jobId results s format comp).totalFiles = 3 := by
  have hs0 : s ≠ 0 := by omega
  have h1 : results ≠ [] := by
    intro h
    rw [h] at hlen
    simp at hlen
  have hlen2 : (results.drop s).length = s + 1 := by
    simp only [List.length_drop]
    omega
  have h2 : results.drop s ≠ [] := by
    intro h
    rw [h] at hlen2
    simp at hlen2
  have hlen3 : ((results.drop s).drop s).length = 1 := by
    simp only [List.length_drop]
    omega
  have h3 : (results.drop s).drop s ≠ [] := by
    intro h
    rw [h] at hlen3
    simp at hlen3
  have e4 : ((results.drop s).drop s).drop s = [] := by
    apply List.drop_eq_nil_of_le
    omega
  have eshards : sliceEvery results s =
      [results.take s, (results.drop s).take s, ((results.drop s).drop s).take s] := by
    rw [sliceEvery_cons results s hs0 h1, sliceEvery_cons (results.drop s) s hs0 h2,
      sliceEvery_cons ((results.drop s).drop s) s hs0 h3, e4, sliceEvery_nil]
  have len1 : (results.take s).length = s := by
    simp only [List.length_take]
    omega
  have len2 : ((results.drop s).take s).length = s := by
    simp only [List.length_take, List.length_drop]
    omega
  have len3 : (((results.drop s).drop s).take s).length = 1 := by
    simp only [List.length_take, List.length_drop]
    omega
  unfold writeResults createShards
  rw [eshards]
  simp only [shardFiles, List.map_cons, List.map_nil, List.length_cons, List.length_nil]
  refine ⟨?_, ?_, ?_, ?_⟩
  · simp [len1, len2, len3] <;> omega
  · trivial
  · exact hlen
  · trivial

/-- Witness for C9 at `shardSize = 2` and five results. -/
theorem c9_sharded_output_witness :
    (writeResults "j1" [0, 1, 2, 3, 4] 2 "jsonl" true).outputFiles.map OutputFile.recordCount =
      [2, 2, 1] ∧
    (writeResults "j1" [0, 1, 2, 3, 4] 2 "jsonl" true).outputFiles.map OutputFile.fileName =
      [generateFileName "j1" 0 "jsonl" true, generateFileName "j1" 1 "jsonl" true,
        generateFileName "j1" 2 "jsonl" true] ∧
    (writeResults "j1" [0, 1, 2, 3, 4] 2 "jsonl" true).totalRecords = 2 * 2 + 1 ∧
    (writeResults "j1" [0, 1, 2, 3, 4] 2 "jsonl" true).totalFiles = 3 :=
  c9_sharded_output "j1" [0, 1, 2, 3, 4] 2 "jsonl" true (by decide) (by decide)

/-! ## Lemmas about the retry loop -/

/-- When every attempt fails, the retry loop consumes all remaining
attempts (one extraction call each), returns no result and leaves the
document marked failed. -/
theorem retryLoop_allFail (extract : Nat → Except String Json)
    (hf : ∀ j r, extract j ≠ .ok r) :
    ∀ (remaining attempt : Nat) (lastE : Option String) (d : Doc),
      (retryLoop extract d attempt remaining lastE).result = none ∧
      (retryLoop extract d attempt remaining lastE).calls = remaining ∧
      (retryLoop extract d attempt remaining lastE).finalDoc.status = .failed := by
  intro remaining
  induction remaining with
  | zero =>
    intro attempt lastE d
    simp [retryLoop, Doc.markFailed]
  | succ n ih =>
    intro attempt lastE d
    cases hx : extract attempt with
    | ok v => exact absurd hx (hf attempt v)
    | error e =>
      have h := ih (attempt + 1) (some e) d.markProcessing
      simp only [retryLoop, hx]
      exact ⟨h.1, by simp [h.2.1], h.2.2⟩

/-- When the first success is on 0-indexed attempt `attempt + k` (all
earlier attempts failing) and `k` attempts remain, the retry loop
returns that result with 1-indexed attempt count `attempt + k + 1`. -/
theorem retryLoop_firstSuccess (extract : Nat → Except String Json) :
    ∀ (k remaining attempt : Nat) (lastE : Option String) (d : Doc) (r : Json),
      extract (attempt + k) = .ok r →
      (∀ j, j < k → ∀ r2, extract (attempt + j) ≠ .ok r2) →
      k < remaining →
      (retryLoop extract d attempt remaining lastE).result =
        some ⟨d.id, d.name, r, attempt + k + 1⟩ := by
  intro k
  induction k with
  | zero =>
    intro remaining attempt lastE d r hok _hfail hlt
    cases remaining with
    | zero => omega
    | succ n =>
      rw [Nat.add_zero] at hok
      simp [retryLoop, hok, Doc.markProcessing]
  | succ m ih =>
    intro remaining attempt lastE d r hok hfail hlt
    cases remaining with
    | zero => omega
    | succ n =>
      cases hx : extract attempt with
      | ok v =>
        have := hfail 0 (by omega) v
        rw [Nat.add_zero] at this
        exact absurd hx this
      | error e =>
        have hok2 : extract (attempt + 1 + m) = .ok r := by
          have harith : attempt + 1 + m = attempt + (m + 1) := by omega
          rw [harith]
          exact hok
        have hfail2 : ∀ j, j < m → ∀ r2, extract (attempt + 1 + j) ≠ .ok r2 := by
          intro j hj r2
          have harith : attempt + 1 + j = attempt + (j + 1) := by omega
          rw [harith]
          exact hfail (j + 1) (by omega) r2
        have h := ih n (attempt + 1) (some e) d.markProcessing r hok2 hfail2 (by omega)
        simp only [retryLoop, hx]
        rw [h]
        have harith : attempt + 1 + m + 1 = attempt + (m + 1) + 1 := by omega
        simp [Doc.markProcessing, harith]

/-- A result returned by the retry loop carries the processed document's
id and name. -/
theorem retryLoop_result_id (extract : Nat → Except String Json) :
    ∀ (remaining attempt : Nat) (lastE : Option String) (d : Doc) (r : ProcessingResult),
      (retryLoop extract d attempt remaining lastE).result = some r →
      r.documentId = d.id ∧ r.documentName = d.name := by
  intro remaining
  induction remaining with
  | zero =>
    intro attempt lastE d r h
    simp [retryLoop] at h
  | succ n ih =>
    intro attempt lastE d r h
    simp only [retryLoop] at h
    cases hx : extract attempt with
    | ok v =>
      rw [hx] at h
      simp at h
      rw [← h]
      exact ⟨rfl, rfl⟩
    | error e =>
      rw [hx] at h
      simp at h
      exact ih (attempt + 1) (some e) d.markProcessing r h

/-! ## C1: retry executor attempt counts -/

/-- C1: for every document whose extraction fails on every attempt and
every configuration with `maxRetries ≥ 0`, `processDocument` attempts the
extraction exactly `maxRetries + 1` times before giving up; and on any
run where some attempt succeeds, the returned `ProcessingResult` reports
`attempts` equal to the 1-indexed number of the (first) succeeding
attempt. -/
theorem c1_retry_attempts (extract : Nat → Except String Json) (maxRetries : Nat) (d : Doc) :
    ((∀ j r, extract j ≠ .ok r) →
      (processDocument extract maxRetries d).calls = maxRetries + 1 ∧
      (processDocument extract maxRetries d).result = none) ∧
    (∀ k r, k ≤ maxRetries → extract k = .ok r →
      (∀ j, j < k → ∀ r2, extract j ≠ .ok r2) →
      (processDocument extract maxRetries d).result = some ⟨d.id, d.name, r, k + 1⟩) := by
  constructor
  · intro hf
    have h := retryLoop_allFail extract hf (maxRetries + 1) 0 none d
    exact ⟨h.2.1, h.1⟩
  · intro k r hk hok hfail
    have hok0 : extract (0 + k) = .ok r := by
      rw [Nat.zero_add]
      exact hok
    have hfail0 : ∀ j, j < k → ∀ r2, extract (0 + j) ≠ .ok r2 := by
      intro j hj r2
      rw [Nat.zero_add]
      exact hfail j hj r2
    have h := retryLoop_firstSuccess extract k (maxRetries + 1) 0 none d r hok0 hfail0
      (by omega)
    rw [processDocument, h]
    simp

/-- Witness for C1: an oracle failing all of 2 allowed retries makes
3 calls; an oracle failing once then succeeding reports `attempts = 2`. -/
theorem c1_retry_attempts_witness :
    ((processDocument alwaysFail 2 doc1).calls = 2 + 1 ∧
      (processDocument alwaysFail 2 doc1).result = none) ∧
    (processDocument failOnce 2 doc1).result = some ⟨doc1.id, doc1.name, Json.null, 1 + 1⟩ :=
  ⟨(c1_retry_attempts alwaysFail 2 doc1).1 (by intro j r h; simp [alwaysFail] at h),
   (c1_retry_attempts failOnce 2 doc1).2 1 Json.null (by omega) (by simp [failOnce])
     (by intro j hj r2 h; interval_cases j <;> simp [failOnce] at h)⟩

/-! ## Lemmas about chunking -/

theorem lastIndexOfAux_le (c : Char) (limit : Nat) :
    ∀ (cs : List Char) (i : Nat), lastIndexOfAux c limit cs i ≤ (limit : Int) := by
  intro cs
  induction cs with
  | nil =>
    intro i
    simp only [lastIndexOfAux]
    omega
  | cons x xs ih =>
    intro i
    simp only [lastIndexOfAux]
    split
    · exact ih (i + 1)
    · split
      · rename_i hcond
        exact_mod_cast Int.ofNat_le.mpr hcond.1
      · omega

theorem jsLastIndexOf_le (s : String) (c : Char) (fromIndex : Nat) :
    jsLastIndexOf s c fromIndex ≤ (fromIndex : Int) :=
  lastIndexOfAux_le c fromIndex s.data 0

/-- A window never ends more than one character past
`start + maxChunkSize` (the one extra coming from `breakPoint + 1` when
the boundary sits exactly at the window end). -/
theorem chunkEnd_le (content : String) (m start : Nat) :
    chunkEnd content m start ≤ start + m + 1 := by
  simp only [chunkEnd]
  split
  · set bp := max (jsLastIndexOf content '.' (start + m))
      (jsLastIndexOf content '\n' (start + m)) with hbp
    have h1 : bp ≤ ((start + m : Nat) : Int) := by
      rw [hbp]
      exact max_le (jsLastIndexOf_le content '.' (start + m))
        (jsLastIndexOf_le content '\n' (start + m))
    split
    · omega
    · omega
  · omega

/-- Under the advance precondition `5 * overlap < 4 * maxChunkSize`, a
window's end lies strictly past `start + overlap`, so the next start
strictly increases. -/
theorem chunkEnd_gt (content : String) (m ov start : Nat) (hm : 0 < m)
    (hov : 5 * ov < 4 * m) : start + ov < chunkEnd content m start := by
  simp only [chunkEnd]
  split
  · set bp := max (jsLastIndexOf content '.' (start + m))
      (jsLastIndexOf content '\n' (start + m)) with hbp
    split
    · rename_i hcond
      omega
    · omega
  · omega

/-- Invariant of the chunking loop: with the advance precondition and
enough fuel, the loop returns; the spans it returns start at the current
position, follow the `next start = end - overlap` relation, and each is
nonempty and at most `maxChunkSize + 1` long. -/
theorem chunkSpans_inv (content : String) (m ov : Nat) (hm : 0 < m)
    (hov : 5 * ov < 4 * m) :
    ∀ (fuel start : Nat), content.length - start < fuel →
      ∃ spans, chunkSpans content m ov fuel start = some spans ∧
        (start < content.length →
          ∃ rest, spans = (start, chunkEnd content m start) :: rest) ∧
        (content.length ≤ start → spans = []) ∧
        List.Chain' (fun p q => q.1 = p.2 - ov) spans ∧
        (∀ p ∈ spans, p.1 < p.2 ∧ p.2 ≤ p.1 + m + 1) := by
  intro fuel
  induction fuel with
  | zero =>
    intro start h
    omega
  | succ n ih =>
    intro start h
    by_cases hs : start < content.length
    · have hend := chunkEnd_gt content m ov start hm hov
      have hle := chunkEnd_le content m start
      obtain ⟨rest, hrest, hcons, hnil, hchain, hbnd⟩ :=
        ih (chunkEnd content m start - ov) (by omega)
      refine ⟨(start, chunkEnd content m start) :: rest, ?_, ?_, ?_, ?_, ?_⟩
      · simp only [chunkSpans]
        rw [if_pos hs, hrest]
      · intro _
        exact ⟨rest, rfl⟩
      · intro hge
        omega
      · by_cases h2 : chunkEnd content m start - ov < content.length
        · obtain ⟨rest2, hrest2⟩ := hcons h2
          rw [hrest2]
          rw [hrest2] at hchain
          exact List.Chain'.cons rfl hchain
        · have hr : rest = [] := hnil (by omega)
          rw [hr]
          simp
      · intro p hp
        cases hp with
        | head => exact ⟨by omega, hle⟩
        | tail _ hmem => exact hbnd p hmem
    · refine ⟨[], ?_, ?_, ?_, ?_, ?_⟩
      · simp only [chunkSpans]
        rw [if_neg hs]
      · intro hlt
        omega
      · intro _
        rfl
      · simp
      · simp

theorem jsSubstring_length_le (s : String) (a b : Nat) :
    (jsSubstring s a b).length ≤ b - a := by
  have h : (jsSubstring s a b).length = ((s.data.drop a).take (b - a)).length := rfl
  rw [h, List.length_take]
  omega

/-! ## C8: chunk window shape (corrected) -/

/-- C8 counterexample: the claim's bound "windows each of length at most
`maxChunkSize`" fails.  For content `"aaaaa.bcdefg"` with
`maxChunkSize = 5` and `chunkOverlap = 1`, the sentence boundary sits
exactly at the window end (`lastIndexOf(".", 5) = 5`), the window is cut
at `breakPoint + 1 = 6`, and the first chunk has length 6 > 5. -/
theorem c8_counterexample :
    ¬ (∀ c ∈ (chunkContent "aaaaa.bcdefg" 5 1).getD [], c.length ≤ 5) := by
  decide

/-- C8 amended: for content longer than `maxChunkSize` (with
`0 < maxChunkSize` and the advance precondition
`5 * chunkOverlap < 4 * maxChunkSize` under which the loop terminates),
`chunkContent` returns the loop's windows in order: the first starts at
0, each next window starts `chunkOverlap` characters before the previous
window's end, every window ends at `chunkEnd` (the last `.` or newline
boundary at or before `start + maxChunkSize` when it lies past 80% of
the window, else `start + maxChunkSize`), and each chunk's length is at
most `maxChunkSize + 1` — one more than the claim stated, the extra
character arising when the boundary sits exactly at the window end. -/
theorem c8_amended (content : String) (m ov : Nat) (hm : 0 < m)
    (hov : 5 * ov < 4 * m) (hlen : m < content.length) :
    ∃ spans, chunkSpans content m ov (content.length + 1) 0 = some spans ∧
      chunkContent content m ov = some (spans.map fun p => jsSubstring content p.1 p.2) ∧
      (∃ rest, spans = (0, chunkEnd content m 0) :: rest) ∧
      List.Chain' (fun p q => q.1 = p.2 - ov) spans ∧
      (∀ p ∈ spans, p.1 < p.2 ∧ p.2 ≤ p.1 + m + 1) ∧
      (∀ c ∈ spans.map fun p => jsSubstring content p.1 p.2, c.length ≤ m + 1) := by
  obtain ⟨spans, hspans, hcons, _hnil, hchain, hbnd⟩ :=
    chunkSpans_inv content m ov hm hov (content.length + 1) 0 (by omega)
  refine ⟨spans, hspans, ?_, hcons (by omega), hchain, hbnd, ?_⟩
  · unfold chunkContent
    have hneeds : needsChunking content m = true := by
      simp [needsChunking, hlen]
    rw [hneeds]
    simp only [Bool.true_eq_false, if_false]
    rw [hspans]
  · intro c hc
    obtain ⟨p, hp, hpc⟩ := List.mem_map.mp hc
    have hb := hbnd p hp
    have hlen2 : (jsSubstring content p.1 p.2).length ≤ p.2 - p.1 :=
      jsSubstring_length_le content p.1 p.2
    rw [← hpc]
    omega

/-- Witness for C8 amended at the counterexample's input. -/
theorem c8_amended_witness :
    ∃ spans, chunkSpans "aaaaa.bcdefg" 5 1 ("aaaaa.bcdefg".length + 1) 0 = some spans ∧
      chunkContent "aaaaa.bcdefg" 5 1 =
        some (spans.map fun p => jsSubstring "aaaaa.bcdefg" p.1 p.2) ∧
      (∃ rest, spans = (0, chunkEnd "aaaaa.bcdefg" 5 0) :: rest) ∧
      List.Chain' (fun p q => q.1 = p.2 - 1) spans ∧
      (∀ p ∈ spans, p.1 < p.2 ∧ p.2 ≤ p.1 + 5 + 1) ∧
      (∀ c ∈ spans.map fun p => jsSubstring "aaaaa.bcdefg" p.1 p.2, c.length ≤ 5 + 1) :=
  c8_amended "aaaaa.bcdefg" 5 1 (by decide) (by decide) (by decide)

/-! ## C10: chunking loop termination -/

/-- C10: for every content string and all parameters with
`0 < maxChunkSize` and `chunkOverlap` strictly below 80% of
`maxChunkSize` (exactly `5 * chunkOverlap < 4 * maxChunkSize`), every
iteration of the `while` loop strictly advances the start position
(`next start = chunkEnd - overlap > start`), and therefore the loop —
`chunkContent`, fuelled — terminates. -/
theorem c10_chunk_termination (content : String) (m ov : Nat) (hm : 0 < m)
    (hov : 5 * ov < 4 * m) :
    (∀ start, start < content.length → start + ov < chunkEnd content m start) ∧
    (chunkContent content m ov).isSome := by
  constructor
  · intro start _
    exact chunkEnd_gt content m ov start hm hov
  · unfold chunkContent
    by_cases h : needsChunking content m
    · rw [h]
      simp only [Bool.true_eq_false, if_false]
      obtain ⟨spans, hspans, -⟩ :=
        chunkSpans_inv content m ov hm hov (content.length + 1) 0 (by omega)
      rw [hspans]
      rfl
    · simp only [Bool.not_eq_true] at h
      rw [h]
      rfl

/-- Witness for C10 at `maxChunkSize = 5`, `chunkOverlap = 1`. -/
theorem c10_chunk_termination_witness :
    (∀ start, start < ("aaaaa.bcdefg" : String).length →
      start + 1 < chunkEnd "aaaaa.bcdefg" 5 start) ∧
    (chunkContent "aaaaa.bcdefg" 5 1).isSome :=
  c10_chunk_termination "aaaaa.bcdefg" 5 1 (by decide) (by decide)

/-! ## C5: corruption recovery (corrected) -/

/-- C5 counterexample: a collection file whose content is not one valid
JSON value and whose lines are one valid (`5`) and one invalid (`x`)
fragment.  The read recovers exactly the valid records, but contrary to
the claim it leaves NO backup file (the source backs the file up only
when no line survives). -/
theorem c5_counterexample :
    Json.parse "5\nx" = none ∧
    trimIsEmpty "5\nx" = false ∧
    (splitOnChar '\n' ("5\nx").data).map String.mk = ["5", "x"] ∧
    validLines "5\nx" = ["5"] ∧
    (readCollection (some "5\nx")).records = Json.arr [Json.num 5] ∧
    (readCollection (some "5\nx")).backup = none :=
  ⟨rfl, rfl, rfl, rfl, rfl, rfl⟩

/-- C5 amended: for a collection file whose content is not one valid
JSON value but has at least one line parsing as a standalone JSON value,
a read yields exactly the records parsed from the valid lines and leaves
the live file unchanged — but creates NO backup (the backup plus reset
happens only when no line survives).  The hypotheses `h4`, `h5` record
that the reassembled array parses to the per-line values, which holds for
every `JSON.parse`-valid fragment list. -/
theorem c5_amended (data : String) (vs : List Json)
    (h1 : trimIsEmpty data = false)
    (h2 : Json.parse data = none)
    (h3 : validLines data ≠ [])
    (h4 : Json.parse ("[" ++ String.intercalate "," (validLines data) ++ "]") =
      some (Json.arr vs))
    (h5 : vs = (validLines data).filterMap Json.parse) :
    (readCollection (some data)).records =
      Json.arr ((validLines data).filterMap Json.parse) ∧
    (readCollection (some data)).backup = none ∧
    (readCollection (some data)).newContent = data := by
  have h3b : (validLines data).isEmpty = false := by
    cases hv : validLines data with
    | nil => exact absurd hv h3
    | cons a as => rfl
  simp only [readCollection, h1, h2, h3b, Bool.false_eq_true, if_false, h4]
  simp [h5]

/-- Witness for C5 amended at the counterexample's file content. -/
theorem c5_amended_witness :
    (readCollection (some "5\nx")).records =
      Json.arr ((validLines "5\nx").filterMap Json.parse) ∧
    (readCollection (some "5\nx")).backup = none ∧
    (readCollection (some "5\nx")).newContent = "5\nx" :=
  c5_amended "5\nx" [Json.num 5] rfl rfl
    (by intro h; rw [show validLines "5\nx" = ["5"] from rfl] at h; simp at h) rfl rfl

/-! ## C7: unsupported extraction type (corrected) -/

/-- On a nonempty chunk list, an extraction type that is none of the four
supported tags makes the per-chunk loop fail at the first chunk with the
`Unsupported extraction type` error. -/
theorem runChunks_unsupported (provider : ExtractorProvider) (t : String)
    (schema : Option Json) (i : Nat) (chunk : String) (rest : List String)
    (h1 : t ≠ "schema") (h2 : t ≠ "entities") (h3 : t ≠ "summary")
    (h4 : t ≠ "keywords") :
    runChunks provider t schema i (chunk :: rest) =
      .error ("Unsupported extraction type: " ++ t) := by
  simp [runChunks, h1, h2, h3, h4]

set_option maxRecDepth 4000 in
/-- C7 counterexample: with chunking enabled, `maxChunkSize = 300` and a
301-character document, an unsupported extraction type (`"vector"`) IS
rejected with the `UnsupportedExtractionType` error, but only inside the
per-chunk loop: the content has already been chunked when the error is
raised (the flag in the outcome records that `chunkContent` ran), contrary
to the claim that the content is never chunked for unsupported types. -/
theorem c7_counterexample :
    (effectiveType configBadType ∈ (["schema", "entities", "summary", "keywords"] :
      List String)) = False ∧
    extractFromDocument provider0 cfgSmall configBadType docBig =
      some (.error "Unsupported extraction type: vector", true) := by
  constructor
  · simp [effectiveType, configBadType]
  · have henable : cfgSmall.enableChunking = true := rfl
    have hneeds : needsChunking docBig.content cfgSmall.maxChunkSize = true := by decide
    obtain ⟨spans, hspans, hcons, -, -, -⟩ :=
      chunkSpans_inv docBig.content cfgSmall.maxChunkSize 200 (by decide) (by decide)
        (docBig.content.length + 1) 0 (by omega)
    obtain ⟨rest, hrest⟩ := hcons (by decide)
    simp only [extractFromDocument]
    simp only [henable, hneeds, Bool.and_self, if_true]
    simp only [chunkContent]
    simp only [hneeds, Bool.true_eq_false, if_false]
    simp only [hspans]
    simp only [hrest, List.map_cons]
    rw [runChunks_unsupported provider0 _ configBadType.schema 0 _ _ (by decide)
      (by decide) (by decide) (by decide)]
    rfl

/-- C7 amended: for every document and configuration whose effective
extraction type is not one of the four supported tags, extraction fails
with the `UnsupportedExtractionType` error thrown at the first chunk —
but the rejection happens AFTER chunking, not before: when chunking is
enabled and the content oversized, the content is chunked first (the
outcome's flag equals `enableChunking && needsChunking`).  The
termination hypothesis keeps the chunking loop (overlap fixed at the
source's default 200) total. -/
theorem c7_amended (provider : ExtractorProvider) (cfg : Config)
    (config : ExtractionConfig) (doc : Doc)
    (ht : effectiveType config ∉ (["schema", "entities", "summary", "keywords"] :
      List String))
    (hterm : 1000 < 4 * cfg.maxChunkSize ∨
      (cfg.enableChunking && needsChunking doc.content cfg.maxChunkSize) = false) :
    extractFromDocument provider cfg config doc =
      some (.error ("Unsupported extraction type: " ++ effectiveType config),
        cfg.enableChunking && needsChunking doc.content cfg.maxChunkSize) := by
  simp only [List.mem_cons, List.mem_singleton, not_or] at ht
  obtain ⟨ht1, ht2, ht3, ht4, -⟩ := ht
  by_cases hflag : (cfg.enableChunking && needsChunking doc.content cfg.maxChunkSize) = true
  · have hm : 1000 < 4 * cfg.maxChunkSize := by
      cases hterm with
      | inl h => exact h
      | inr h => rw [hflag] at h; exact absurd h (by simp)
    have henable : cfg.enableChunking = true := (Bool.and_eq_true_iff.mp hflag).1
    have hneeds : needsChunking doc.content cfg.maxChunkSize = true :=
      (Bool.and_eq_true_iff.mp hflag).2
    have hlen : cfg.maxChunkSize < doc.content.length := by
      simpa [needsChunking] using hneeds
    obtain ⟨spans, hspans, hcons, -, -, -⟩ :=
      chunkSpans_inv doc.content cfg.maxChunkSize 200 (by omega) (by omega)
        (doc.content.length + 1) 0 (by omega)
    obtain ⟨rest, hrest⟩ := hcons (by omega)
    simp only [extractFromDocument, henable, hneeds, Bool.and_self, if_true,
      chunkContent, Bool.true_eq_false, if_false, hspans, hrest, List.map_cons]
    rw [runChunks_unsupported provider _ config.schema 0 _ _ ht1 ht2 ht3 ht4]
  · simp only [Bool.not_eq_true] at hflag
    simp only [extractFromDocument, hflag, Bool.false_eq_true, if_false]
    rw [runChunks_unsupported provider _ config.schema 0 _ _ ht1 ht2 ht3 ht4]

/-- Witness for C7 amended at the counterexample's inputs (and also at a
small document that is not chunked). -/
theorem c7_amended_witness :
    extractFromDocument provider0 cfgSmall configBadType docBig =
      some (.error ("Unsupported extraction type: " ++ effectiveType configBadType),
        cfgSmall.enableChunking && needsChunking docBig.content cfgSmall.maxChunkSize) :=
  c7_amended provider0 cfgSmall configBadType docBig (by simp [effectiveType, configBadType])
    (Or.inl (by decide))

/-! ## C2: failures mark the job failed and re-raise -/

/-- C2: for every jobId whose Job record exists, if any exception is
raised during the processing run (record-store error, empty or missing
document set, output-writer error), then `execute` sets that job's
status to `failed`, persists the error message in the job's metadata via
the record store, and re-raises the same error to the caller (the
re-raised error in `result` equals the persisted `metadata.error`). -/
theorem c2_failure_persists (env : Env) (jobId : String) (j : JobRec)
    (hj : env.jobStore = some j) (e : String)
    (he : (execute env jobId).result = .error e) :
    (execute env jobId).finalJob.map (fun jf => (jf.status, jf.metadataError)) =
      some (Status.failed, some e) := by
  obtain ⟨cfg, jobStore, docStore, extract, e1, e2, e3, e4⟩ := env
  simp only at hj
  subst hj
  cases e1 <;> cases e2 <;> cases e3 <;> cases e4 <;>
    by_cases hids : j.documentIds.isEmpty <;>
    by_cases hdocs : (getDocumentsForJob docStore j).isEmpty <;>
    simp_all [execute, JobRec.markFailed, JobRec.markProcessing, JobRec.markCompleted]

/-- Witness for C2: a job whose document set resolves empty; the run
fails with the EmptyJob error, which is persisted on the failed job. -/
theorem c2_failure_persists_witness :
    (execute envEmpty "j1").finalJob.map (fun jf => (jf.status, jf.metadataError)) =
      some (Status.failed, some "No documents found for job j1") :=
  c2_failure_persists envEmpty "j1" jobEmptyDocs rfl "No documents found for job j1" rfl

/-! ## C6: monotone job status -/

/-- C6: starting from a pending job (the absence of an explicit reprocess
request), the sequence of job statuses saved to the record store during
one `execute` run is strictly increasing along
pending → processing → {completed, failed}; in particular no terminal
status is ever followed by `processing`. -/
theorem c6_monotone_status (env : Env) (jobId : String) (j : JobRec)
    (hj : env.jobStore = some j) (hp : j.status = .pending) :
    List.Chain' (fun a b => statusRank a < statusRank b)
      (j.status :: (execute env jobId).jobSaves) := by
  obtain ⟨cfg, jobStore, docStore, extract, e1, e2, e3, e4⟩ := env
  simp only at hj
  subst hj
  cases e1 <;> cases e2 <;> cases e3 <;> cases e4 <;>
    by_cases hids : j.documentIds.isEmpty <;>
    by_cases hdocs : (getDocumentsForJob docStore j).isEmpty <;>
    simp_all [execute, JobRec.markFailed, JobRec.markProcessing, JobRec.markCompleted,
      statusRank]

/-- Witness for C6 on the empty-document-set run. -/
theorem c6_monotone_status_witness :
    List.Chain' (fun a b => statusRank a < statusRank b)
      (jobEmptyDocs.status :: (execute envEmpty "j1").jobSaves) :=
  c6_monotone_status envEmpty "j1" jobEmptyDocs rfl rfl

/-! ## Batching flattens to a per-document pass -/

/-- The nested wave/batch/worker slicing of the concurrency controller
collects exactly the per-document outcomes, in document order: the
results are the `filterMap` of `processDocument` over the whole list and
the saved documents its `map`. -/
theorem processDocuments_spec (extract : Doc → Nat → Except String Json) (cfg : Config)
    (documents : List Doc) (hbs : cfg.maxBatchSize ≠ 0)
    (hcb : cfg.maxConcurrentBatches ≠ 0) (hw : cfg.maxConcurrentWorkers ≠ 0) :
    (processDocuments extract cfg documents).1 =
      documents.filterMap
        (fun d => (processDocument (extract d) cfg.maxRetries d).result) ∧
    (processDocuments extract cfg documents).2 =
      documents.map
        (fun d => (processDocument (extract d) cfg.maxRetries d).finalDoc) := by
  have hb1 : ∀ batch : List Doc,
      (processBatch extract cfg.maxRetries cfg.maxConcurrentWorkers batch).1 =
        batch.filterMap (fun d => (processDocument (extract d) cfg.maxRetries d).result) :=
    fun batch => flatten_map_sliceEvery _
      (fun a b => List.filterMap_append a b _) cfg.maxConcurrentWorkers hw batch
  have hb2 : ∀ batch : List Doc,
      (processBatch extract cfg.maxRetries cfg.maxConcurrentWorkers batch).2 =
        batch.map (fun d => (processDocument (extract d) cfg.maxRetries d).finalDoc) :=
    fun batch => flatten_map_sliceEvery _
      (fun a b => List.map_append _ a b) cfg.maxConcurrentWorkers hw batch
  constructor
  · show ((sliceEvery (createBatches documents cfg.maxBatchSize)
        cfg.maxConcurrentBatches).map _).flatten = _
    rw [flatten_map_sliceEvery
      (fun w => (w.map fun b =>
        (processBatch extract cfg.maxRetries cfg.maxConcurrentWorkers b).1).flatten)
      (fun a b => by simp [List.map_append, List.flatten_append])
      cfg.maxConcurrentBatches hcb (createBatches documents cfg.maxBatchSize)]
    rw [List.map_congr_left (fun b _ => hb1 b)]
    exact flatten_map_sliceEvery _
      (fun a b => List.filterMap_append a b _) cfg.maxBatchSize hbs documents
  · show ((sliceEvery (createBatches documents cfg.maxBatchSize)
        cfg.maxConcurrentBatches).map _).flatten = _
    rw [flatten_map_sliceEvery
      (fun w => (w.map fun b =>
        (processBatch extract cfg.maxRetries cfg.maxConcurrentWorkers b).2).flatten)
      (fun a b => by simp [List.map_append, List.flatten_append])
      cfg.maxConcurrentBatches hcb (createBatches documents cfg.maxBatchSize)]
    rw [List.map_congr_left (fun b _ => hb2 b)]
    exact flatten_map_sliceEvery _
      (fun a b => List.map_append _ a b) cfg.maxBatchSize hbs documents

/-- On a run with no injected infrastructure failures and a nonempty
resolved document set, `execute` succeeds: the summary counts every
resolved document, the result list is the run's results and the final
document states are the per-document outcomes. -/
theorem execute_success (env : Env) (jobId : String) (j : JobRec)
    (hj : env.jobStore = some j)
    (h1 : env.saveProcessingError = none) (h2 : env.findDocsError = none)
    (h3 : env.writeOutputError = none) (h4 : env.saveCompletedError = none)
    (hne : getDocumentsForJob env.docStore j ≠ []) :
    (execute env jobId).result = .ok
      ⟨jobId, (getDocumentsForJob env.docStore j).length,
        (processDocuments env.extract env.cfg (getDocumentsForJob env.docStore j)).1.length,
        (getDocumentsForJob env.docStore j).length -
          (processDocuments env.extract env.cfg (getDocumentsForJob env.docStore j)).1.length,
        writeResults jobId
          (processDocuments env.extract env.cfg (getDocumentsForJob env.docStore j)).1
          env.cfg.shardSize env.cfg.outputFormat env.cfg.compressionEnabled⟩ ∧
    (execute env jobId).results =
      (processDocuments env.extract env.cfg (getDocumentsForJob env.docStore j)).1 ∧
    (execute env jobId).finalDocs =
      (processDocuments env.extract env.cfg (getDocumentsForJob env.docStore j)).2 := by
  obtain ⟨cfg, jobStore, docStore, extract, e1, e2, e3, e4⟩ := env
  simp only at hj h1 h2 h3 h4 hne ⊢
  subst hj h1 h2 h3 h4
  have hids : j.documentIds.isEmpty = false := by
    cases hi : j.documentIds.isEmpty
    · rfl
    · exfalso
      apply hne
      have : j.documentIds = [] := by
        cases hl : j.documentIds
        · rfl
        · rw [hl] at hi
          simp at hi
      simp [getDocumentsForJob, this]
  have hdocs : (getDocumentsForJob docStore j).isEmpty = false := by
    cases hl : getDocumentsForJob docStore j
    · exact absurd hl hne
    · rfl
  simp only [execute, hids, Bool.false_eq_true, if_false, hdocs]
  simp [getDocumentsForJob, hids]

/-! ## C3: a document's permanent failure is isolated -/

/-- C3: on a run with no infrastructure faults, a single document whose
processing fails on all retry attempts never causes its batch or the job
to fail: the run returns a summary (`.ok`), that document's own saved
status is `failed`, it is absent from the result list, and the summary
reflects aggregate counts — `processedDocuments` equals the number of
results and `failedDocuments` equals `totalDocuments` minus
`processedDocuments`. -/
theorem c3_document_failure_isolated (env : Env) (jobId : String) (j : JobRec)
    (hj : env.jobStore = some j)
    (h1 : env.saveProcessingError = none) (h2 : env.findDocsError = none)
    (h3 : env.writeOutputError = none) (h4 : env.saveCompletedError = none)
    (hbs : env.cfg.maxBatchSize ≠ 0) (hcb : env.cfg.maxConcurrentBatches ≠ 0)
    (hw : env.cfg.maxConcurrentWorkers ≠ 0)
    (d : Doc) (hd : d ∈ getDocumentsForJob env.docStore j)
    (hfail : ∀ k r, env.extract d k ≠ .ok r)
    (huniq : ∀ d2 ∈ getDocumentsForJob env.docStore j, d2.id = d.id → d2 = d) :
    ∃ s, (execute env jobId).result = .ok s ∧
      s.processedDocuments = (execute env jobId).results.length ∧
      s.failedDocuments = s.totalDocuments - s.processedDocuments ∧
      s.totalDocuments = (getDocumentsForJob env.docStore j).length ∧
      (∀ r ∈ (execute env jobId).results, r.documentId ≠ d.id) ∧
      (processDocument (env.extract d) env.cfg.maxRetries d).finalDoc ∈
        (execute env jobId).finalDocs ∧
      (processDocument (env.extract d) env.cfg.maxRetries d).finalDoc.status =
        Status.failed := by
  have hne : getDocumentsForJob env.docStore j ≠ [] := by
    intro h
    rw [h] at hd
    exact absurd hd (List.not_mem_nil d)
  obtain ⟨hres, hresults, hdocs⟩ :=
    execute_success env jobId j hj h1 h2 h3 h4 hne
  obtain ⟨hp1, hp2⟩ := processDocuments_spec env.extract env.cfg
    (getDocumentsForJob env.docStore j) hbs hcb hw
  have hdnone : (processDocument (env.extract d) env.cfg.maxRetries d).result = none :=
    (retryLoop_allFail (env.extract d) hfail (env.cfg.maxRetries + 1) 0 none d).1
  refine ⟨_, hres, ?_, rfl, rfl, ?_, ?_, ?_⟩
  · rw [hresults]
  · intro r hr heq
    rw [hresults, hp1] at hr
    obtain ⟨d2, hd2, hd2r⟩ := List.mem_filterMap.mp hr
    have hid : r.documentId = d2.id :=
      (retryLoop_result_id (env.extract d2) (env.cfg.maxRetries + 1) 0 none d2 r hd2r).1
    have : d2 = d := huniq d2 hd2 (by rw [← hid, heq])
    rw [this] at hd2r
    rw [hdnone] at hd2r
    exact Option.noConfusion hd2r
  · rw [hdocs, hp2]
    exact List.mem_map_of_mem _ hd
  · exact (retryLoop_allFail (env.extract d) hfail (env.cfg.maxRetries + 1) 0 none d).2.2

/-- Witness for C3: one document failing all attempts under a
single-document job; the run succeeds with 0 processed, 1 failed. -/
theorem c3_document_failure_isolated_witness :
    ∃ s, (execute envFailDoc "j1").result = .ok s ∧
      s.processedDocuments = (execute envFailDoc "j1").results.length ∧
      s.failedDocuments = s.totalDocuments - s.processedDocuments ∧
      s.totalDocuments = (getDocumentsForJob envFailDoc.docStore jobOneDoc).length ∧
      (∀ r ∈ (execute envFailDoc "j1").results, r.documentId ≠ doc1.id) ∧
      (processDocument (envFailDoc.extract doc1) envFailDoc.cfg.maxRetries doc1).finalDoc ∈
        (execute envFailDoc "j1").finalDocs ∧
      (processDocument (envFailDoc.extract doc1) envFailDoc.cfg.maxRetries doc1).finalDoc.status =
        Status.failed :=
  c3_document_failure_isolated envFailDoc "j1" jobOneDoc rfl rfl rfl rfl rfl
    (by decide) (by decide) (by decide) doc1
    (by rw [show getDocumentsForJob envFailDoc.docStore jobOneDoc = [doc1] from rfl]
        exact List.mem_singleton.mpr rfl)
    (by intro k r h; exact Except.noConfusion h)
    (by rw [show getDocumentsForJob envFailDoc.docStore jobOneDoc = [doc1] from rfl]
        intro d2 hd2 _
        exact List.mem_singleton.mp hd2)

/-! ## C4: NotFound and EmptyJob (corrected) -/

/-- C4 counterexample: a job referencing an existing document `d1` and a
missing document `dx` does NOT fail: `findByIds` silently drops the
missing id and the run succeeds, contrary to the claim that a missing
referenced document yields NotFound. -/
theorem c4_counterexample :
    jobTwoDocs.documentIds.contains "dx" = true ∧
    (envMissingDoc.docStore.any fun d => d.id == "dx") = false ∧
    ((execute envMissingDoc "j1").result.toOption).isSome = true := by
  refine ⟨rfl, rfl, ?_⟩
  have hne : getDocumentsForJob envMissingDoc.docStore jobTwoDocs ≠ [] := by
    rw [show getDocumentsForJob envMissingDoc.docStore jobTwoDocs = [doc1] from rfl]
    simp
  obtain ⟨hres, -, -⟩ :=
    execute_success envMissingDoc "j1" jobTwoDocs rfl rfl rfl rfl rfl hne
  rw [hres]
  rfl

/-- C4 amended: `execute(jobId)` fails with NotFound exactly when the job
record itself is missing; referenced document ids with no matching
record are silently dropped by `findByIds`; it fails with EmptyJob when
the resolved (existing) document set is empty; and otherwise — absent
injected store or output failures — it succeeds even if some referenced
documents do not exist. -/
theorem c4_amended (env : Env) (jobId : String) :
    (env.jobStore = none →
      (execute env jobId).result = .error ("Job " ++ jobId ++ " not found")) ∧
    (∀ j, env.jobStore = some j → env.saveProcessingError = none →
      env.findDocsError = none → getDocumentsForJob env.docStore j = [] →
      (execute env jobId).result =
        .error ("No documents found for job " ++ jobId)) ∧
    (∀ j, env.jobStore = some j → env.saveProcessingError = none →
      env.findDocsError = none → env.writeOutputError = none →
      env.saveCompletedError = none → getDocumentsForJob env.docStore j ≠ [] →
      ∃ s, (execute env jobId).result = .ok s) := by
  refine ⟨?_, ?_, ?_⟩
  · intro hnone
    obtain ⟨cfg, jobStore, docStore, extract, e1, e2, e3, e4⟩ := env
    simp only at hnone
    subst hnone
    rfl
  · intro j hj hsp hfd hempty
    obtain ⟨cfg, jobStore, docStore, extract, e1, e2, e3, e4⟩ := env
    simp only at hj hsp hfd hempty
    subst hj hsp hfd
    have hids : j.documentIds.isEmpty = true ∨ j.documentIds.isEmpty = false := by
      cases j.documentIds.isEmpty
      · exact Or.inr rfl
      · exact Or.inl rfl
    cases hids with
    | inl hi => simp [execute, hi]
    | inr hi =>
      have hd : (getDocumentsForJob docStore j).isEmpty = true := by
        rw [hempty]
        rfl
      simp [execute, hi, hd]
  · intro j hj hsp hfd hwo hsc hne
    obtain ⟨hres, -, -⟩ := execute_success env jobId j hj hsp hfd hwo hsc hne
    exact ⟨_, hres⟩

/-- Witness for C4 amended: the missing-job, resolved-empty and
missing-referenced-document environments. -/
theorem c4_amended_witness :
    (execute ⟨cfgSmall, none, [], fun _ _ => .ok Json.null, none, none, none, none⟩
        "nope").result = .error ("Job " ++ "nope" ++ " not found") ∧
    (execute envEmpty "j1").result = .error ("No documents found for job " ++ "j1") ∧
    ∃ s, (execute envMissingDoc "j1").result = .ok s :=
  ⟨(c4_amended ⟨cfgSmall, none, [], fun _ _ => .ok Json.null, none, none, none, none⟩
      "nope").1 rfl,
   (c4_amended envEmpty "j1").2.1 jobEmptyDocs rfl rfl rfl rfl,
   (c4_amended envMissingDoc "j1").2.2 jobTwoDocs rfl rfl rfl rfl rfl
     (by rw [show getDocumentsForJob envMissingDoc.docStore jobTwoDocs = [doc1] from rfl]
         simp)⟩

end AD
